import Mathlib

/-!
A shallow embedding of the evidence pool of klyed/tendermint
(src/evidence/pool.go), together with theorems settling the claims about it.

Modelling conventions:
* Go int64 values (heights, byte budgets) are modelled as ℤ.
* Go time.Time and time.Duration are modelled as ℤ (nanoseconds);
  t1.Sub(t2) is t1 - t2 and t1.After(t2) is t2 < t1.
* The Go uint32 size counter is modelled as ℕ with explicit reduction
  modulo 2 ^ 32 wherever the Go code performs uint32 arithmetic.
* The ordered key-value store (tm-db) is modelled as an association list
  kept sorted by key; order-preserving key encoding (orderedcode) makes
  byte-wise iteration order equal tuple-wise lexicographic order, so keys
  are modelled as the tuple (prefix, height, hash) with lexicographic order.
* Store write and lookup failures are injected through an explicit Faults
  record; batch deletes are collected and applied atomically on write-sync,
  exactly as in the source.
* The external protobuf codec is total in the model (round-trip identity);
  the cryptographic verifier, which lives outside these sources, is passed
  in as an opaque boolean predicate.
* Functions from the external types package that the pool calls are
  modelled from the spec and are marked as such in their doc comments.
-/

namespace EvidencePool

/-- One second, with time modelled in integer nanoseconds (Go time.Second). -/
def nsPerSecond : ℤ := 1000000000

/-- Modulus of Go uint32 arithmetic, 2 ^ 32. -/
def u32 : ℕ := 4294967296

/-- A consensus vote; the pool only inspects its height, the rest of the
vote (validator address, round, block id, signature) is abstracted into an
opaque identity. -/
structure Vote where
  height : ℤ
  id : ℕ
deriving DecidableEq, Repr

/-- The two variants of the sealed evidence taxonomy. -/
inductive EvKind where
  | duplicateVote
  | lightClientAttack
deriving DecidableEq, Repr

/-- A validator as compared by fastCheck: an address and a voting power. -/
structure Validator where
  address : ℕ
  votingPower : ℤ
deriving DecidableEq, Repr

/-- Evidence as the pool sees it: the interface height / time / hash plus
the serialized size (used by listEvidence, modelled from the spec as the
per-item contribution to the aggregate size), the validator set captured by
duplicate-vote evidence, and the byzantine validator list carried by
light-client-attack evidence (none models a nil Go slice). -/
structure Evidence where
  kind : EvKind
  height : ℤ
  time : ℤ
  vals : ℕ
  byzVals : Option (List Validator)
  hash : ℕ
  evSize : ℕ
deriving DecidableEq, Repr

/-- The evidence consensus parameters (src/evidence/pool.go isExpired). -/
structure EvidenceParams where
  maxAgeNumBlocks : ℤ
  maxAgeDuration : ℤ
deriving DecidableEq, Repr

/-- The slice of replicated consensus state the pool reads. -/
structure SMState where
  lastBlockHeight : ℤ
  lastBlockTime : ℤ
  evidenceParams : EvidenceParams
  lastValidators : ℕ
deriving DecidableEq, Repr

/-- A storage key: the tuple encoded by orderedcode.Append in
keyCommitted / keyPending (src/evidence/pool.go lines 681-697). -/
structure Key where
  pfx : ℤ
  height : ℤ
  hash : ℕ
deriving DecidableEq, Repr

/-- Lexicographic order on keys: orderedcode keeps byte-wise order of the
encodings equal to this tuple order. -/
def keyLt (a b : Key) : Prop :=
  a.pfx < b.pfx ∨ (a.pfx = b.pfx ∧
    (a.height < b.height ∨ (a.height = b.height ∧ a.hash < b.hash)))

instance (a b : Key) : Decidable (keyLt a b) := by
  unfold keyLt
  exact inferInstance

/-- The committed-bucket key prefix (src/evidence/pool.go line 26). -/
def pfxCommitted : ℤ := 9

/-- The pending-bucket key prefix (src/evidence/pool.go line 27). -/
def pfxPending : ℤ := 10

/-- A stored value: pending entries hold encoded evidence, committed
entries hold an encoded int64 commit height. -/
inductive Value where
  | ev : Evidence → Value
  | committedHeight : ℤ → Value
deriving DecidableEq, Repr

/-- The evidence store: an association list sorted ascending by key. -/
abbrev Store := List (Key × Value)

/-- Point write: insert the pair at its sorted position, replacing an
entry with an equal key. -/
def storeSet : Store → Key → Value → Store
  | [], k, v => [(k, v)]
  | (k', v') :: rest, k, v =>
    if keyLt k k' then (k, v) :: (k', v') :: rest
    else if k = k' then (k, v) :: rest
    else (k', v') :: storeSet rest k v

/-- Point read. -/
def storeGet : Store → Key → Option Value
  | [], _ => none
  | (k', v') :: rest, k => if k = k' then some v' else storeGet rest k

/-- Point existence query. -/
def storeHas (s : Store) (k : Key) : Bool :=
  (storeGet s k).isSome

/-- Point delete. -/
def storeDelete : Store → Key → Store
  | [], _ => []
  | (k', v') :: rest, k =>
    if k' = k then storeDelete rest k else (k', v') :: storeDelete rest k

/-- Iteration over one key prefix (dbm.IteratePrefix): because the store is
sorted, filtering keeps ascending key order. -/
def iterPfx (s : Store) (p : ℤ) : Store :=
  s.filter (fun kv => decide (kv.1.pfx = p))

/-- keyCommitted of the source: (prefixCommitted, height, hash). -/
def keyCommitted (ev : Evidence) : Key :=
  { pfx := pfxCommitted, height := ev.height, hash := ev.hash }

/-- keyPending of the source: (prefixPending, height, hash). -/
def keyPending (ev : Evidence) : Key :=
  { pfx := pfxPending, height := ev.height, hash := ev.hash }

/-- Injected store failures: a point Set error, a point Has error (the
source logs it and uses the false value that comes with it), and a batch
WriteSync error. -/
structure Faults where
  setFail : Key → Bool
  hasFail : Key → Bool
  writeSyncFail : Bool

/-- The fault-free store behaviour. -/
def noFaults : Faults :=
  { setFail := fun _ => false, hasFail := fun _ => false, writeSyncFail := false }

/-- The two read-only external stores: stateDB.LoadValidators and
blockStore.LoadBlockMeta (only the header time of the block meta is read);
none models a lookup failure / missing block. -/
structure Env where
  loadValidators : ℤ → Option ℕ
  loadBlockMeta : ℤ → Option ℤ

/-- A buffered conflicting-vote pair (duplicateVoteSet in the source). -/
structure DuplicateVoteSet where
  voteA : Vote
  voteB : Vote
deriving DecidableEq, Repr

/-- Modelled from the spec: types.NewDuplicateVoteEvidence of the external
types package (not part of these sources). The evidence records the two
votes, the supplied timestamp and the supplied validator set; its height is
the height of the votes and its identity is a hash of the canonical
content, modelled as an injective pairing of the two vote identities. -/
def NewDuplicateVoteEvidence (a b : Vote) (t : ℤ) (valset : ℕ) : Evidence :=
  { kind := EvKind.duplicateVote, height := a.height, time := t,
    vals := valset, byzVals := none, hash := Nat.pair a.id b.id, evSize := 0 }

/-- Errors surfaced by AddEvidence. -/
inductive PoolError where
  | storage
  | invalid
deriving DecidableEq, Repr

/-- Errors surfaced by CheckEvidence (types.ErrInvalidEvidence reasons). -/
inductive CheckError where
  | alreadyCommitted
  | invalid
  | duplicateEv
deriving DecidableEq, Repr

/-- The evidence pool state (struct Pool of the source): the store, the
broadcast clist (as a FIFO list), the atomic uint32 size counter, the
cached consensus state, the consensus buffer and the pruning cursor. -/
structure Pool where
  store : Store
  evidenceList : List Evidence
  evidenceSize : ℕ
  state : SMState
  consensusBuffer : List DuplicateVoteSet
  pruningHeight : ℤ
  pruningTime : ℤ
deriving DecidableEq, Repr

/-- Size (src/evidence/pool.go lines 251-254): the atomic counter. -/
def Pool.Size (p : Pool) : ℕ :=
  p.evidenceSize

/-- isExpired against an explicit state (src/evidence/pool.go lines
337-345): both the height age and the time age must exceed their bounds. -/
def isExpiredAt (st : SMState) (height : ℤ) (time : ℤ) : Bool :=
  decide (st.lastBlockHeight - height > st.evidenceParams.maxAgeNumBlocks) &&
  decide (st.lastBlockTime - time > st.evidenceParams.maxAgeDuration)

/-- isExpired of the source, reading the pool's cached state. -/
def Pool.isExpired (p : Pool) (height : ℤ) (time : ℤ) : Bool :=
  isExpiredAt p.state height time

/-- isCommitted (src/evidence/pool.go lines 348-355): a Has on the
committed key; a store error is logged and the false answer used. -/
def Pool.isCommitted (p : Pool) (f : Faults) (ev : Evidence) : Bool :=
  if f.hasFail (keyCommitted ev) then false else storeHas p.store (keyCommitted ev)

/-- isPending (src/evidence/pool.go lines 357-365). -/
def Pool.isPending (p : Pool) (f : Faults) (ev : Evidence) : Bool :=
  if f.hasFail (keyPending ev) then false else storeHas p.store (keyPending ev)

/-- addPendingEvidence (src/evidence/pool.go lines 367-387): marshal (total
in the model), Set, then atomically increment the uint32 size counter. -/
def Pool.addPendingEvidence (p : Pool) (f : Faults) (ev : Evidence) :
    Except PoolError Pool :=
  if f.setFail (keyPending ev) then Except.error PoolError.storage
  else Except.ok { p with
    store := storeSet p.store (keyPending ev) (Value.ev ev),
    evidenceSize := (p.evidenceSize + 1) % u32 }

/-- AddEvidence (src/evidence/pool.go lines 146-178): pending and committed
duplicates are silent no-ops, then verify, then persist, then push to the
broadcast list. The verifier is external and passed as a predicate. -/
def Pool.AddEvidence (p : Pool) (f : Faults) (verifyOk : Evidence → Bool)
    (ev : Evidence) : Except PoolError Pool :=
  if p.isPending f ev then Except.ok p
  else if p.isCommitted f ev then Except.ok p
  else if verifyOk ev = false then Except.error PoolError.invalid
  else
    match p.addPendingEvidence f ev with
    | Except.error e => Except.error e
    | Except.ok p1 => Except.ok { p1 with evidenceList := p1.evidenceList ++ [ev] }

/-- ReportConflictingVotes (src/evidence/pool.go lines 189-196). -/
def Pool.ReportConflictingVotes (p : Pool) (voteA voteB : Vote) : Pool :=
  { p with consensusBuffer :=
      p.consensusBuffer ++ [{ voteA := voteA, voteB := voteB }] }

/-- Modelled from the spec: the byzantine-validator sort order of the
external types.ValidatorsByVotingPower (descending voting power, ties
broken by ascending address). -/
def valBefore (a b : Validator) : Bool :=
  decide (b.votingPower < a.votingPower) ||
  (decide (a.votingPower = b.votingPower) && decide (a.address < b.address))

/-- Insertion step of the byzantine-validator sort. -/
def insertVal (v : Validator) : List Validator → List Validator
  | [] => [v]
  | w :: rest => if valBefore v w then v :: w :: rest else w :: insertVal v rest

/-- Sorting used by fastCheck before comparing byzantine validators. -/
def sortByVotingPower (l : List Validator) : List Validator :=
  l.foldr insertVal []

/-- The list carried by an optional byzantine-validator slice. -/
def bvList : Option (List Validator) → List Validator
  | none => []
  | some l => l

/-- fastCheck (src/evidence/pool.go lines 266-333): for light-client-attack
evidence, load the stored pending copy and compare its byzantine validators
with the (re-sorted) proposed ones; for all other evidence just isPending. -/
def Pool.fastCheck (p : Pool) (f : Faults) (ev : Evidence) : Bool :=
  match ev.kind with
  | EvKind.lightClientAttack =>
    match storeGet p.store (keyPending ev) with
    | none => false
    | some (Value.committedHeight _) => false
    | some (Value.ev trusted) =>
      if trusted.byzVals = none ∧ ev.byzVals ≠ none then false
      else if (bvList trusted.byzVals).length ≠ (bvList ev.byzVals).length then false
      else
        ((bvList trusted.byzVals).zip (sortByVotingPower (bvList ev.byzVals))).all
          (fun pr => decide (pr.1.address = pr.2.address) &&
                     decide (pr.1.votingPower = pr.2.votingPower))
  | EvKind.duplicateVote => p.isPending f ev

/-- One item of the CheckEvidence loop body before the duplicate-hash scan
(src/evidence/pool.go lines 206-226): ok means continue with the updated
pool, error means CheckEvidence returns that error with the pool as
mutated so far. A failed addPendingEvidence is logged and skipped; note
the source does not push to the broadcast list here. -/
def Pool.checkOne (p : Pool) (f : Faults) (verifyOk : Evidence → Bool)
    (ev : Evidence) : Except (Pool × CheckError) Pool :=
  if p.fastCheck f ev then Except.ok p
  else if p.isCommitted f ev then Except.error (p, CheckError.alreadyCommitted)
  else if verifyOk ev = false then Except.error (p, CheckError.invalid)
  else
    match p.addPendingEvidence f ev with
    | Except.error _ => Except.ok p
    | Except.ok p1 => Except.ok p1

/-- The CheckEvidence loop (src/evidence/pool.go lines 202-238) with the
hashes of the items already processed; the duplicate scan over earlier
hashes is membership in that list. -/
def checkLoop (f : Faults) (verifyOk : Evidence → Bool) :
    Pool → List ℕ → List Evidence → Pool × Option CheckError
  | p, _, [] => (p, none)
  | p, hashes, ev :: rest =>
    match p.checkOne f verifyOk ev with
    | Except.error pe => (pe.1, some pe.2)
    | Except.ok p1 =>
      if decide (ev.hash ∈ hashes) then (p1, some CheckError.duplicateEv)
      else checkLoop f verifyOk p1 (ev.hash :: hashes) rest

/-- CheckEvidence (src/evidence/pool.go lines 202-238): the pool is
returned alongside the outcome because mutations made before a rejection
persist. -/
def Pool.CheckEvidence (p : Pool) (f : Faults) (verifyOk : Evidence → Bool)
    (evList : List Evidence) : Pool × Option CheckError :=
  checkLoop f verifyOk p [] evList

/-- Insertion into the blockEvidenceMap, a set of hashes kept as a
duplicate-free list in first-insertion order. -/
def insertHash (m : List ℕ) (h : ℕ) : List ℕ :=
  if decide (h ∈ m) then m else m ++ [h]

/-- Folding insertHash over a list of hashes. -/
def insertHashes (m : List ℕ) (l : List ℕ) : List ℕ :=
  l.foldl insertHash m

/-- The uint32 size-counter decrement by n items, exactly as written in the
source: an atomic add of the bit complement of uint32(n-1)
(src/evidence/pool.go lines 437 and 517). -/
def sizeDecrement (s n : ℕ) : ℕ :=
  (s + ((u32 - 1) - (n - 1) % u32)) % u32

/-- removeEvidenceFromList (src/evidence/pool.go lines 560-571): unlink
every broadcast-list node whose hash is in the map. -/
def removeEvidenceFromList (l : List Evidence) (bmap : List ℕ) : List Evidence :=
  l.filter (fun e => decide (e.hash ∉ bmap))

/-- One iteration of the markEvidenceAsCommitted loop (src/evidence/pool.go
lines 396-420), threading the live store, the batched pending deletions and
the blockEvidenceMap: a pending item is batched for deletion and recorded;
the committed marker is written directly to the store (outside the batch),
skipped only if that point Set fails. -/
def mecStep (f : Faults) (height : ℤ) (acc : Store × List Key × List ℕ)
    (ev : Evidence) : Store × List Key × List ℕ :=
  let pend : Bool :=
    if f.hasFail (keyPending ev) then false else storeHas acc.1 (keyPending ev)
  let dels := if pend then acc.2.1 ++ [keyPending ev] else acc.2.1
  let bmap := if pend then insertHash acc.2.2 ev.hash else acc.2.2
  let st :=
    if f.setFail (keyCommitted ev) then acc.1
    else storeSet acc.1 (keyCommitted ev) (Value.committedHeight height)
  (st, dels, bmap)

/-- markEvidenceAsCommitted (src/evidence/pool.go lines 391-438): run the
loop; if nothing was pending return; otherwise write-sync the batched
pending deletions, and only on success remove from the broadcast list and
decrement the size counter. -/
def Pool.markEvidenceAsCommitted (p : Pool) (f : Faults)
    (evidence : List Evidence) (height : ℤ) : Pool :=
  let r := evidence.foldl (mecStep f height) (p.store, [], [])
  if r.2.2 = [] then { p with store := r.1 }
  else if f.writeSyncFail then { p with store := r.1 }
  else { p with
    store := r.2.1.foldl storeDelete r.1,
    evidenceList := removeEvidenceFromList p.evidenceList r.2.2,
    evidenceSize := sizeDecrement p.evidenceSize r.2.2.length }

/-- The batchExpiredPendingEvidence loop (src/evidence/pool.go lines
531-557): walk the pending bucket in key order; at the first non-expired
item return the expiry cursor computed from it; otherwise batch the delete
and record the hash. An entry that fails to decode is logged and skipped. -/
def Pool.batchExpiredLoop (p : Pool) :
    List (Key × Value) → List Key → List ℕ → ℤ × ℤ × List Key × List ℕ
  | [], dels, bmap => (p.state.lastBlockHeight, p.state.lastBlockTime, dels, bmap)
  | (k, v) :: rest, dels, bmap =>
    match v with
    | Value.committedHeight _ => p.batchExpiredLoop rest dels bmap
    | Value.ev ev =>
      if p.isExpired ev.height ev.time = false then
        (ev.height + p.state.evidenceParams.maxAgeNumBlocks + 1,
         ev.time + p.state.evidenceParams.maxAgeDuration + nsPerSecond,
         dels, bmap)
      else p.batchExpiredLoop rest (dels ++ [k]) (insertHash bmap ev.hash)

/-- batchExpiredPendingEvidence (src/evidence/pool.go lines 522-558). -/
def Pool.batchExpiredPendingEvidence (p : Pool) : ℤ × ℤ × List Key × List ℕ :=
  p.batchExpiredLoop (iterPfx p.store pfxPending) [] []

/-- removeExpiredPendingEvidence (src/evidence/pool.go lines 490-520):
returns the updated pool and the new pruning cursor; on a write-sync
failure nothing is mutated and the cursor falls back to the current state
height and time. -/
def Pool.removeExpiredPendingEvidence (p : Pool) (f : Faults) : Pool × ℤ × ℤ :=
  let r := p.batchExpiredPendingEvidence
  if r.2.2.2 = [] then (p, r.1, r.2.1)
  else if f.writeSyncFail then (p, p.state.lastBlockHeight, p.state.lastBlockTime)
  else ({ p with
    store := r.2.2.1.foldl storeDelete p.store,
    evidenceList := removeEvidenceFromList p.evidenceList r.2.2.2,
    evidenceSize := sizeDecrement p.evidenceSize r.2.2.2.length }, r.1, r.2.1)

/-- The per-pair body of processConsensusBuffer (src/evidence/pool.go lines
586-649): form the duplicate-vote evidence according to the height
comparison (skipping on failed historical lookups or future heights), skip
evidence already pending or committed, persist, and push to the broadcast
list; a failed persist is logged and skipped. -/
def processPair (f : Faults) (env : Env) (s : SMState) (p : Pool)
    (pair : DuplicateVoteSet) : Pool :=
  let dveOpt : Option Evidence :=
    if pair.voteA.height = s.lastBlockHeight then
      some (NewDuplicateVoteEvidence pair.voteA pair.voteB
        s.lastBlockTime s.lastValidators)
    else if pair.voteA.height < s.lastBlockHeight then
      match env.loadValidators pair.voteA.height with
      | none => none
      | some valset =>
        match env.loadBlockMeta pair.voteA.height with
        | none => none
        | some headerTime =>
          some (NewDuplicateVoteEvidence pair.voteA pair.voteB headerTime valset)
    else none
  match dveOpt with
  | none => p
  | some dve =>
    if p.isPending f dve then p
    else if p.isCommitted f dve then p
    else
      match p.addPendingEvidence f dve with
      | Except.error _ => p
      | Except.ok p1 => { p1 with evidenceList := p1.evidenceList ++ [dve] }

/-- processConsensusBuffer (src/evidence/pool.go lines 583-652): process
every buffered pair against the supplied state, then clear the buffer. -/
def Pool.processConsensusBuffer (p : Pool) (f : Faults) (env : Env)
    (s : SMState) : Pool :=
  let p1 := p.consensusBuffer.foldl (processPair f env s) p
  { p1 with consensusBuffer := [] }

/-- Update (src/evidence/pool.go lines 112-143): none models the panic on a
non-increasing height; otherwise drain the consensus buffer, adopt the new
state, mark the block's evidence committed, and prune expired evidence when
the pool is non-empty and the new state is past the pruning cursor. -/
def Pool.Update (p : Pool) (f : Faults) (env : Env) (s : SMState)
    (ev : List Evidence) : Option Pool :=
  if s.lastBlockHeight ≤ p.state.lastBlockHeight then none
  else
    let p1 := p.processConsensusBuffer f env s
    let p2 := { p1 with state := s }
    let p3 := p2.markEvidenceAsCommitted f ev s.lastBlockHeight
    some (if 0 < p3.Size ∧ p3.pruningHeight < s.lastBlockHeight ∧
             p3.pruningTime < s.lastBlockTime then
      let r := p3.removeExpiredPendingEvidence f
      { r.1 with pruningHeight := r.2.1, pruningTime := r.2.2 }
    else p3)

/-- The listEvidence loop (src/evidence/pool.go lines 457-481) over the
values of the iterated bucket: append the decoded item to the running
aggregate; if the aggregate size would exceed a non-negative cap, return
the items accepted so far. The aggregate protobuf size is modelled from the
spec as the sum of the per-item serialized sizes. A value that fails to
decode as evidence ends the iteration with the items accepted so far. -/
def listEvidenceLoop (maxBytes : ℤ) :
    List Value → List Evidence → ℤ → ℤ → List Evidence × ℤ
  | [], acc, _, total => (acc, total)
  | v :: rest, acc, accSize, total =>
    match v with
    | Value.committedHeight _ => (acc, total)
    | Value.ev ev =>
      if maxBytes ≠ -1 ∧ accSize + (ev.evSize : ℤ) > maxBytes then (acc, total)
      else
        listEvidenceLoop maxBytes rest (acc ++ [ev])
          (accSize + (ev.evSize : ℤ)) (accSize + (ev.evSize : ℤ))

/-- listEvidence (src/evidence/pool.go lines 442-488). -/
def Pool.listEvidence (p : Pool) (pfxKey : ℤ) (maxBytes : ℤ) :
    List Evidence × ℤ :=
  listEvidenceLoop maxBytes ((iterPfx p.store pfxKey).map (fun kv => kv.2)) [] 0 0

/-- PendingEvidence (src/evidence/pool.go lines 92-103): empty when the
size counter is zero, otherwise listEvidence over the pending bucket (a
retrieval error is logged and whatever was retrieved is returned). -/
def Pool.PendingEvidence (p : Pool) (maxBytes : ℤ) : List Evidence × ℤ :=
  if p.Size = 0 then ([], 0) else p.listEvidence pfxPending maxBytes

/-- The entries of the pending bucket, as (key, evidence) pairs in store
iteration order. -/
def evOf (kv : Key × Value) : Option (Key × Evidence) :=
  match kv.2 with
  | Value.ev e => some (kv.1, e)
  | Value.committedHeight _ => none

/-- The decoded pending set in key order. -/
def pendingEntries (s : Store) : List (Key × Evidence) :=
  (iterPfx s pfxPending).filterMap evOf

/-- The pending evidence in key order. -/
def pendingList (s : Store) : List Evidence :=
  (pendingEntries s).map (fun ke => ke.2)

/-- Sum of the serialized sizes of a list of evidence (the spec-modelled
aggregate size of listEvidence). -/
def sumSizes (l : List Evidence) : ℤ :=
  (l.map (fun e => (e.evSize : ℤ))).sum

/-- Specification-side companion of the listEvidence cap, written from the
spec's words: accumulate items in order while the aggregate stays within
the cap, returning items up to and including the last one that still
fits. -/
def fitAux (maxBytes : ℤ) (accSize : ℤ) : List Evidence → List Evidence
  | [] => []
  | e :: rest =>
    if accSize + (e.evSize : ℤ) > maxBytes then []
    else e :: fitAux maxBytes (accSize + (e.evSize : ℤ)) rest

/-- Well-formedness of one store entry: an entry in the pending bucket
holds evidence whose pending key is the entry's key. -/
def entryWF (kv : Key × Value) : Prop :=
  kv.1.pfx = pfxPending →
    match kv.2 with
    | Value.ev e => kv.1 = keyPending e
    | Value.committedHeight _ => False

instance (kv : Key × Value) : Decidable (entryWF kv) := by
  unfold entryWF
  rcases kv with ⟨k, v⟩
  cases v <;> exact inferInstance

/-- Well-formedness of the pending bucket of a store. -/
def PendingWF (s : Store) : Prop :=
  ∀ kv ∈ s, entryWF kv

instance (s : Store) : Decidable (PendingWF s) :=
  List.decidableBAll _ s

/-- Strict key-sortedness of a store. -/
def StoreSorted (s : Store) : Prop :=
  List.Pairwise (fun a b : Key × Value => keyLt a.1 b.1) s

instance (s : Store) : Decidable (StoreSorted s) := by
  unfold StoreSorted
  exact inferInstance

/-! Concrete pools, states and evidence used by the closed counterexamples
and witnesses below. -/

/-- A concrete state: height 100, time 2000ns, expiry window of 5 blocks
and 10ns, validator set 7. -/
def demoState : SMState :=
  { lastBlockHeight := 100, lastBlockTime := 2000,
    evidenceParams := { maxAgeNumBlocks := 5, maxAgeDuration := 10 },
    lastValidators := 7 }

/-- The same parameters at the earlier height 90, time 1000ns. -/
def demoState0 : SMState :=
  { lastBlockHeight := 90, lastBlockTime := 1000,
    evidenceParams := { maxAgeNumBlocks := 5, maxAgeDuration := 10 },
    lastValidators := 7 }

/-- An empty pool cached at demoState. -/
def demoEmptyPool : Pool :=
  { store := [], evidenceList := [], evidenceSize := 0, state := demoState,
    consensusBuffer := [], pruningHeight := 0, pruningTime := 0 }

/-- An external environment whose lookups always fail. -/
def demoEnv : Env :=
  { loadValidators := fun _ => none, loadBlockMeta := fun _ => none }

/-- Faults where only the batch write-sync fails. -/
def wsFaults : Faults :=
  { setFail := fun _ => false, hasFail := fun _ => false, writeSyncFail := true }

/-- Duplicate-vote evidence at height 10, time 1995ns. -/
def demoEv : Evidence :=
  { kind := EvKind.duplicateVote, height := 10, time := 1995, vals := 0,
    byzVals := none, hash := 42, evSize := 100 }

/-- The pool obtained by adding demoEv to demoEmptyPool. -/
def demoPool1 : Pool :=
  { store := [(keyPending demoEv, Value.ev demoEv)], evidenceList := [demoEv],
    evidenceSize := 1, state := demoState, consensusBuffer := [],
    pruningHeight := 0, pruningTime := 0 }

/-- Old-height but recent-time evidence: height 1, time 1999ns; at
demoState its height age (99 blocks) exceeds 5, but its time age (1ns)
does not exceed 10ns. -/
def cexEv1 : Evidence :=
  { kind := EvKind.duplicateVote, height := 1, time := 1999, vals := 0,
    byzVals := none, hash := 1, evSize := 10 }

/-- Fully expired evidence at demoState: height 2, time 0ns. -/
def cexEv2 : Evidence :=
  { kind := EvKind.duplicateVote, height := 2, time := 0, vals := 0,
    byzVals := none, hash := 2, evSize := 10 }

/-- A pool at demoState0 holding cexEv1 and cexEv2 (key order: cexEv1
first). -/
def cexPool2 : Pool :=
  { store := [(keyPending cexEv1, Value.ev cexEv1),
              (keyPending cexEv2, Value.ev cexEv2)],
    evidenceList := [cexEv1, cexEv2], evidenceSize := 2, state := demoState0,
    consensusBuffer := [], pruningHeight := 0, pruningTime := 0 }

/-- The pool produced by one Update of cexPool2 to demoState with an empty
block: the prune stops at cexEv1 (not expired) and only advances the
cursor, leaving the expired cexEv2 pending. -/
def cexPool2After : Pool :=
  { cexPool2 with
    state := demoState
    pruningHeight := 7
    pruningTime := 1000002009 }

/-- Pending evidence for the write-sync failure counterexample. -/
def cexC3Ev : Evidence :=
  { kind := EvKind.duplicateVote, height := 3, time := 50, vals := 0,
    byzVals := none, hash := 9, evSize := 10 }

/-- A pool holding only cexC3Ev. -/
def cexC3Pool : Pool :=
  { store := [(keyPending cexC3Ev, Value.ev cexC3Ev)],
    evidenceList := [cexC3Ev], evidenceSize := 1, state := demoState,
    consensusBuffer := [], pruningHeight := 0, pruningTime := 0 }

/-- Evidence of serialized size 300 at height 1. -/
def demoEv300 : Evidence :=
  { kind := EvKind.duplicateVote, height := 1, time := 1995, vals := 0,
    byzVals := none, hash := 1, evSize := 300 }

/-- Evidence of serialized size 400 at height 2. -/
def demoEv400 : Evidence :=
  { kind := EvKind.duplicateVote, height := 2, time := 1996, vals := 0,
    byzVals := none, hash := 2, evSize := 400 }

/-- Evidence of serialized size 500 at height 3. -/
def demoEv500 : Evidence :=
  { kind := EvKind.duplicateVote, height := 3, time := 1997, vals := 0,
    byzVals := none, hash := 3, evSize := 500 }

/-- The scenario-S5 pool: three pending evidences of sizes 300, 400, 500
in key order. -/
def demoPoolS5 : Pool :=
  { store := [(keyPending demoEv300, Value.ev demoEv300),
              (keyPending demoEv400, Value.ev demoEv400),
              (keyPending demoEv500, Value.ev demoEv500)],
    evidenceList := [demoEv300, demoEv400, demoEv500], evidenceSize := 3,
    state := demoState, consensusBuffer := [], pruningHeight := 0,
    pruningTime := 0 }

/-- A conflicting-vote pair at the pool's own last height, 100. -/
def demoPair : DuplicateVoteSet :=
  { voteA := { height := 100, id := 1 }, voteB := { height := 100, id := 2 } }

/-- An empty pool whose consensus buffer holds demoPair. -/
def demoPool5 : Pool :=
  { demoEmptyPool with consensusBuffer := [demoPair] }

/-- First unseen valid evidence for the CheckEvidence witness. -/
def demoEv9a : Evidence :=
  { kind := EvKind.duplicateVote, height := 4, time := 1995, vals := 0,
    byzVals := none, hash := 101, evSize := 10 }

/-- Second valid evidence, appearing twice in the checked block. -/
def demoEv9b : Evidence :=
  { kind := EvKind.duplicateVote, height := 4, time := 1995, vals := 0,
    byzVals := none, hash := 102, evSize := 10 }

/-- Fully expired evidence at demoState (height 1, time 0). -/
def demoEvExp : Evidence :=
  { kind := EvKind.duplicateVote, height := 1, time := 0, vals := 0,
    byzVals := none, hash := 1, evSize := 10 }

/-- Non-expired evidence at demoState (height 2, time 1999). -/
def demoEvFresh : Evidence :=
  { kind := EvKind.duplicateVote, height := 2, time := 1999, vals := 0,
    byzVals := none, hash := 2, evSize := 10 }

/-- A pool at demoState0 whose pending bucket starts with the expired
demoEvExp followed by the non-expired demoEvFresh. -/
def demoPool2W : Pool :=
  { store := [(keyPending demoEvExp, Value.ev demoEvExp),
              (keyPending demoEvFresh, Value.ev demoEvFresh)],
    evidenceList := [demoEvExp, demoEvFresh], evidenceSize := 2,
    state := demoState0, consensusBuffer := [], pruningHeight := 0,
    pruningTime := 0 }

/-- The pool produced by one Update of demoPool2W to demoState with an
empty block: the expired prefix (demoEvExp) is pruned, the cursor advances
to the expiry point of demoEvFresh. -/
def demoPool2WAfter : Pool :=
  { store := [(keyPending demoEvFresh, Value.ev demoEvFresh)],
    evidenceList := [demoEvFresh], evidenceSize := 1, state := demoState,
    consensusBuffer := [], pruningHeight := 8, pruningTime := 1000002009 }

/-! ### Store lemmas -/

theorem keyLt_irrefl (k : Key) : ¬ keyLt k k := by
  simp [keyLt]

theorem keyPending_ne_keyCommitted (ev ev' : Evidence) :
    keyPending ev ≠ keyCommitted ev' := by
  intro h
  have h1 := congrArg Key.pfx h
  simp [keyPending, keyCommitted, pfxPending, pfxCommitted] at h1

theorem keyPending_ne_of_hash_ne {ev ev' : Evidence} (h : ev.hash ≠ ev'.hash) :
    keyPending ev ≠ keyPending ev' := by
  intro he
  exact h (congrArg Key.hash he)

theorem keyCommitted_pfx (ev : Evidence) : (keyCommitted ev).pfx = pfxCommitted :=
  rfl

theorem storeGet_set_self (s : Store) (k : Key) (v : Value) :
    storeGet (storeSet s k v) k = some v := by
  induction s with
  | nil => simp [storeSet, storeGet]
  | cons kv rest ih =>
    rcases kv with ⟨k0, v0⟩
    by_cases h1 : keyLt k k0
    · simp [storeSet, h1, storeGet]
    · by_cases h2 : k = k0
      · subst h2
        simp [storeSet, keyLt_irrefl, storeGet]
      · simp [storeSet, h1, h2, storeGet, ih]

theorem storeGet_set_ne (s : Store) (k : Key) (v : Value) (k' : Key)
    (h : k' ≠ k) : storeGet (storeSet s k v) k' = storeGet s k' := by
  induction s with
  | nil => simp [storeSet, storeGet, h]
  | cons kv rest ih =>
    rcases kv with ⟨k0, v0⟩
    by_cases h1 : keyLt k k0
    · simp [storeSet, h1, storeGet, h]
    · by_cases h2 : k = k0
      · subst h2
        simp [storeSet, h1, storeGet, h]
      · by_cases h3 : k' = k0 <;> simp [storeSet, h1, h2, storeGet, h3, ih]

theorem storeHas_set_self (s : Store) (k : Key) (v : Value) :
    storeHas (storeSet s k v) k = true := by
  simp [storeHas, storeGet_set_self]

theorem storeHas_set_ne (s : Store) (k : Key) (v : Value) (k' : Key)
    (h : k' ≠ k) : storeHas (storeSet s k v) k' = storeHas s k' := by
  simp [storeHas, storeGet_set_ne s k v k' h]

theorem storeGet_delete_self (s : Store) (k : Key) :
    storeGet (storeDelete s k) k = none := by
  induction s with
  | nil => rfl
  | cons kv rest ih =>
    rcases kv with ⟨k0, v0⟩
    by_cases h : k0 = k
    · simp [storeDelete, h, ih]
    · simp [storeDelete, h, storeGet, Ne.symm h, ih]

theorem storeGet_delete_ne (s : Store) (k : Key) (k' : Key) (h : k' ≠ k) :
    storeGet (storeDelete s k) k' = storeGet s k' := by
  induction s with
  | nil => rfl
  | cons kv rest ih =>
    rcases kv with ⟨k0, v0⟩
    by_cases h1 : k0 = k
    · subst h1
      simp [storeDelete, storeGet, h, ih]
    · by_cases h2 : k' = k0 <;> simp [storeDelete, h1, storeGet, h2, ih]

theorem storeHas_delete_self (s : Store) (k : Key) :
    storeHas (storeDelete s k) k = false := by
  simp [storeHas, storeGet_delete_self]

theorem iterPfx_set_ne (s : Store) (k : Key) (v : Value) (q : ℤ)
    (h : k.pfx ≠ q) : iterPfx (storeSet s k v) q = iterPfx s q := by
  induction s with
  | nil => simp [storeSet, iterPfx, h]
  | cons kv rest ih =>
    rcases kv with ⟨k0, v0⟩
    by_cases h1 : keyLt k k0
    · simp [storeSet, h1, iterPfx, List.filter_cons, h]
    · by_cases h2 : k = k0
      · subst h2
        simp [storeSet, keyLt_irrefl, iterPfx, List.filter_cons, h]
      · by_cases h3 : k0.pfx = q <;>
          simpa [storeSet, h1, h2, iterPfx, List.filter_cons, h3] using ih

theorem pendingEntries_set_nonpending (s : Store) (k : Key) (v : Value)
    (h : k.pfx ≠ pfxPending) :
    pendingEntries (storeSet s k v) = pendingEntries s := by
  unfold pendingEntries
  rw [iterPfx_set_ne s k v pfxPending h]

/-! ### Lemmas about the reconciliation loops -/

theorem mec_fold_pendingEntries (f : Faults) (hgt : ℤ) (evs : List Evidence) :
    ∀ acc : Store × List Key × List ℕ,
      pendingEntries (evs.foldl (mecStep f hgt) acc).1 = pendingEntries acc.1 := by
  induction evs with
  | nil => intro acc; rfl
  | cons ev rest ih =>
    intro acc
    rw [List.foldl_cons, ih]
    unfold mecStep
    by_cases hs : f.setFail (keyCommitted ev)
    · simp [hs]
    · have hc : (keyCommitted ev).pfx ≠ pfxPending := by
        simp [keyCommitted_pfx, pfxCommitted, pfxPending]
      simp [hs, pendingEntries_set_nonpending _ _ _ hc]

/-! ### Claim theorems -/

/-- C1 (counterexample): at a state with last height 100, last time 2000
and expiry window (5 blocks, 10ns), the point (height 1, time 1999) fails
the height freshness bound (it is older than 100 - 5), yet isExpired is
false — an item failing only one of the two bounds is not stale, so
isExpired does not hold as soon as at least one bound is violated. -/
theorem c1_counterexample :
    demoEmptyPool.state.lastBlockHeight - 1 >
      demoEmptyPool.state.evidenceParams.maxAgeNumBlocks ∧
    demoEmptyPool.isExpired 1 1999 = false := by
  decide

/-- C1 (amended): the pool's expiry predicate isExpired(height, time)
holds exactly when BOTH freshness bounds are violated — the height is
older than LastBlockHeight - MaxAgeNumBlocks AND the time is older than
LastBlockTime - MaxAgeDuration. -/
theorem c1_isExpired_amended (p : Pool) (h t : ℤ) :
    p.isExpired h t = true ↔
      (h < p.state.lastBlockHeight - p.state.evidenceParams.maxAgeNumBlocks ∧
       t < p.state.lastBlockTime - p.state.evidenceParams.maxAgeDuration) := by
  simp only [Pool.isExpired, isExpiredAt, Bool.and_eq_true, decide_eq_true_eq]
  omega

/-- C3 (counterexample): with a failing batch write-sync,
markEvidenceAsCommitted leaves the evidence both pending and committed —
the committed marker was written directly to the store, outside the
batch — so invariant I1 does not survive a store error during
reconciliation. -/
theorem c3_counterexample :
    (cexC3Pool.markEvidenceAsCommitted wsFaults [cexC3Ev] 91).isPending
      wsFaults cexC3Ev = true ∧
    (cexC3Pool.markEvidenceAsCommitted wsFaults [cexC3Ev] 91).isCommitted
      wsFaults cexC3Ev = true := by
  decide

/-- C3 (amended): when the batch write fails during reconciliation
(markEvidenceAsCommitted or expiry pruning) the operation logs and
continues, and invariants I2 and I3 still hold because the pending bucket,
the broadcast list and the size counter are all left untouched — the size
counter is decremented and the broadcast list shrunk only after the batch
write succeeds. Invariant I1, however, can be violated because committed
markers are written outside the batch. -/
theorem c3_reconciliation_error_preserves_invariants
    (f : Faults) (p : Pool) (evs : List Evidence) (hgt : ℤ)
    (hws : f.writeSyncFail = true) :
    pendingEntries (p.markEvidenceAsCommitted f evs hgt).store =
      pendingEntries p.store ∧
    (p.markEvidenceAsCommitted f evs hgt).evidenceList = p.evidenceList ∧
    (p.markEvidenceAsCommitted f evs hgt).evidenceSize = p.evidenceSize ∧
    (p.removeExpiredPendingEvidence f).1 = p := by
  have hfold := mec_fold_pendingEntries f hgt evs (p.store, [], [])
  have hrun : ∃ st, p.markEvidenceAsCommitted f evs hgt = { p with store := st } ∧
      pendingEntries st = pendingEntries p.store := by
    unfold Pool.markEvidenceAsCommitted
    rw [hws]
    by_cases hb : (evs.foldl (mecStep f hgt) (p.store, [], [])).2.2 = []
    · exact ⟨_, by rw [if_pos hb], hfold⟩
    · exact ⟨_, by rw [if_neg hb, if_pos rfl], hfold⟩
  obtain ⟨st, heq, hpe⟩ := hrun
  rw [heq]
  refine ⟨hpe, rfl, rfl, ?_⟩
  by_cases hb : p.batchExpiredPendingEvidence.2.2.2 = []
  · simp [Pool.removeExpiredPendingEvidence, hb]
  · simp [Pool.removeExpiredPendingEvidence, hb, hws]

/-- C3 (witness for the amended theorem): a concrete pool holding one
pending item, a failing write-sync, and a committed height 91. -/
theorem c3_witness :
    wsFaults.writeSyncFail = true ∧
    pendingEntries (cexC3Pool.markEvidenceAsCommitted wsFaults [cexC3Ev] 91).store =
      pendingEntries cexC3Pool.store ∧
    (cexC3Pool.markEvidenceAsCommitted wsFaults [cexC3Ev] 91).evidenceList =
      cexC3Pool.evidenceList ∧
    (cexC3Pool.markEvidenceAsCommitted wsFaults [cexC3Ev] 91).evidenceSize =
      cexC3Pool.evidenceSize ∧
    (cexC3Pool.removeExpiredPendingEvidence wsFaults).1 = cexC3Pool := by
  refine ⟨rfl, ?_⟩
  exact c3_reconciliation_error_preserves_invariants wsFaults cexC3Pool
    [cexC3Ev] 91 rfl

/-- C6: after markEvidenceAsCommitted([ev], h) with all store writes
succeeding, ev is no longer pending and is committed, hence its hash is
not in both buckets simultaneously. -/
theorem c6_markCommitted_disjoint (p : Pool) (ev : Evidence) (hgt : ℤ) :
    (p.markEvidenceAsCommitted noFaults [ev] hgt).isPending noFaults ev = false ∧
    (p.markEvidenceAsCommitted noFaults [ev] hgt).isCommitted noFaults ev = true ∧
    ¬((p.markEvidenceAsCommitted noFaults [ev] hgt).isPending noFaults ev = true ∧
      (p.markEvidenceAsCommitted noFaults [ev] hgt).isCommitted noFaults ev = true) := by
  have hkey : keyPending ev ≠ keyCommitted ev := keyPending_ne_keyCommitted ev ev
  have hkey' : keyCommitted ev ≠ keyPending ev := hkey.symm
  by_cases hp : storeHas p.store (keyPending ev) = true
  · have hrun : p.markEvidenceAsCommitted noFaults [ev] hgt =
        { p with
          store := storeDelete
            (storeSet p.store (keyCommitted ev) (Value.committedHeight hgt))
            (keyPending ev),
          evidenceList := removeEvidenceFromList p.evidenceList [ev.hash],
          evidenceSize := sizeDecrement p.evidenceSize 1 } := by
      simp [Pool.markEvidenceAsCommitted, mecStep, noFaults, hp, insertHash]
    have h1 : (p.markEvidenceAsCommitted noFaults [ev] hgt).isPending
        noFaults ev = false := by
      rw [hrun]
      simp [Pool.isPending, noFaults, storeHas, storeGet_delete_self]
    have h2 : (p.markEvidenceAsCommitted noFaults [ev] hgt).isCommitted
        noFaults ev = true := by
      rw [hrun]
      simp [Pool.isCommitted, noFaults, storeHas,
        storeGet_delete_ne _ _ _ hkey', storeGet_set_self]
    exact ⟨h1, h2, fun hc => by rw [h1] at hc; exact absurd hc.1 (by simp)⟩
  · have hrun : p.markEvidenceAsCommitted noFaults [ev] hgt =
        { p with
          store := storeSet p.store (keyCommitted ev)
            (Value.committedHeight hgt) } := by
      simp [Pool.markEvidenceAsCommitted, mecStep, noFaults, hp]
    have h1 : (p.markEvidenceAsCommitted noFaults [ev] hgt).isPending
        noFaults ev = false := by
      rw [hrun]
      simp [Pool.isPending, noFaults]
      rw [storeHas_set_ne _ _ _ _ hkey]
      simpa using hp
    have h2 : (p.markEvidenceAsCommitted noFaults [ev] hgt).isCommitted
        noFaults ev = true := by
      rw [hrun]
      simp [Pool.isCommitted, noFaults, storeHas_set_self]
    exact ⟨h1, h2, fun hc => by rw [h1] at hc; exact absurd hc.1 (by simp)⟩

/-- C7: Update panics (returns none in the model) exactly when the new
state's last height is not strictly greater than the cached state's last
height; for strictly increasing heights this check never fires. -/
theorem c7_update_panics_iff (p : Pool) (f : Faults) (env : Env)
    (s : SMState) (ev : List Evidence) :
    p.Update f env s ev = none ↔
      s.lastBlockHeight ≤ p.state.lastBlockHeight := by
  unfold Pool.Update
  split <;> simp_all

/-- C10: the size-counter decrement by n, written as an atomic add of the
bit complement of uint32(n-1), equals subtraction of n modulo 2^32 for
every n ≥ 1; and when n exceeds the counter it wraps around to
2^32 - (n - s) instead of saturating at zero. -/
theorem c10_sizeDecrement_mod (s n : ℕ) :
    (1 ≤ n → (sizeDecrement s n : ℤ) = ((s : ℤ) - (n : ℤ)) % (u32 : ℤ)) ∧
    (1 ≤ n → s < n → n ≤ u32 → sizeDecrement s n = u32 - (n - s)) := by
  unfold sizeDecrement u32
  constructor
  · intro h
    omega
  · intro h h1 h2
    omega

/-- C8: AddEvidence is idempotent: evidence already pending and evidence
already committed are silent no-ops returning Ok with the pool unchanged,
and after any successful AddEvidence(ev) a second AddEvidence(ev) returns
Ok with the very same pool, so Size() keeps its value from after the first
call. -/
theorem c8_addEvidence_idempotent (verifyOk : Evidence → Bool) (p : Pool)
    (ev : Evidence) :
    (p.isPending noFaults ev = true →
      p.AddEvidence noFaults verifyOk ev = Except.ok p) ∧
    (p.isPending noFaults ev = false → p.isCommitted noFaults ev = true →
      p.AddEvidence noFaults verifyOk ev = Except.ok p) ∧
    (∀ p1, p.AddEvidence noFaults verifyOk ev = Except.ok p1 →
      p1.AddEvidence noFaults verifyOk ev = Except.ok p1 ∧
      (∀ p2, p1.AddEvidence noFaults verifyOk ev = Except.ok p2 →
        p2.Size = p1.Size)) := by
  refine ⟨?_, ?_, ?_⟩
  · intro h
    simp [Pool.AddEvidence, h]
  · intro h1 h2
    simp [Pool.AddEvidence, h1, h2]
  · intro p1 h
    have hsecond : p1.AddEvidence noFaults verifyOk ev = Except.ok p1 := by
      by_cases hp : p.isPending noFaults ev = true
      · rw [Pool.AddEvidence, if_pos hp] at h
        cases h
        simp [Pool.AddEvidence, hp]
      · by_cases hc : p.isCommitted noFaults ev = true
        · rw [Pool.AddEvidence, if_neg hp, if_pos hc] at h
          cases h
          simp [Pool.AddEvidence, hp, hc]
        · by_cases hv : verifyOk ev = false
          · rw [Pool.AddEvidence, if_neg hp, if_neg hc, if_pos hv] at h
            cases h
          · rw [Pool.AddEvidence, if_neg hp, if_neg hc, if_neg hv,
              Pool.addPendingEvidence,
              if_neg (show ¬ noFaults.setFail (keyPending ev) = true by
                simp [noFaults])] at h
            simp only [Except.ok.injEq] at h
            subst h
            simp [Pool.AddEvidence, Pool.isPending, noFaults, storeHas,
              storeGet_set_self]
    refine ⟨hsecond, ?_⟩
    intro p2 h2
    rw [hsecond] at h2
    cases h2
    rfl

/-- C8 (witness): adding demoEv to the empty pool yields demoPool1 of size
1; adding it again returns Ok with the pool, and hence the size,
unchanged. -/
theorem c8_witness :
    demoEmptyPool.AddEvidence noFaults (fun _ => true) demoEv =
      Except.ok demoPool1 ∧
    demoPool1.AddEvidence noFaults (fun _ => true) demoEv =
      Except.ok demoPool1 ∧
    demoPool1.Size = 1 := by
  refine ⟨rfl, ?_, rfl⟩
  exact ((c8_addEvidence_idempotent (fun _ => true) demoEmptyPool
    demoEv).2.2 demoPool1 rfl).1

/-- C9: CheckEvidence is not atomic on rejection: checking the block
evidence list [ev1, ev2, ev2] where ev1 is valid and previously unseen and
the later two items share a hash returns a duplicate-evidence error, yet
ev1 has already been persisted to the pending bucket and counted by the
size counter; the pool is not rolled back. -/
theorem c9_checkEvidence_not_atomic
    (p : Pool) (verifyOk : Evidence → Bool) (ev1 ev2 : Evidence)
    (h1k : ev1.kind = EvKind.duplicateVote)
    (h2k : ev2.kind = EvKind.duplicateVote)
    (h1p : p.isPending noFaults ev1 = false)
    (h1c : p.isCommitted noFaults ev1 = false)
    (h2p : p.isPending noFaults ev2 = false)
    (h2c : p.isCommitted noFaults ev2 = false)
    (h1v : verifyOk ev1 = true) (h2v : verifyOk ev2 = true)
    (hne : ev1.hash ≠ ev2.hash) :
    (p.CheckEvidence noFaults verifyOk [ev1, ev2, ev2]).2 =
      some CheckError.duplicateEv ∧
    (p.CheckEvidence noFaults verifyOk [ev1, ev2, ev2]).1.isPending
      noFaults ev1 = true ∧
    (p.CheckEvidence noFaults verifyOk [ev1, ev2, ev2]).1.evidenceSize =
      (p.evidenceSize + 2) % u32 := by
  have hk21 : keyPending ev2 ≠ keyPending ev1 :=
    keyPending_ne_of_hash_ne (Ne.symm hne)
  have hk12 : keyPending ev1 ≠ keyPending ev2 := keyPending_ne_of_hash_ne hne
  have hck : keyCommitted ev2 ≠ keyPending ev1 :=
    (keyPending_ne_keyCommitted ev1 ev2).symm
  have ha : storeHas p.store (keyPending ev1) = false := by
    simpa [Pool.isPending, noFaults] using h1p
  have hb : storeHas p.store (keyCommitted ev1) = false := by
    simpa [Pool.isCommitted, noFaults] using h1c
  have hc2 : storeHas p.store (keyPending ev2) = false := by
    simpa [Pool.isPending, noFaults] using h2p
  have he : storeHas (storeSet p.store (keyPending ev1) (Value.ev ev1))
      (keyPending ev2) = false := by
    rw [storeHas_set_ne _ _ _ _ hk21]
    exact hc2
  have hf : storeHas (storeSet p.store (keyPending ev1) (Value.ev ev1))
      (keyCommitted ev2) = false := by
    rw [storeHas_set_ne _ _ _ _ hck]
    simpa [Pool.isCommitted, noFaults] using h2c
  have hg : storeHas (storeSet (storeSet p.store (keyPending ev1)
      (Value.ev ev1)) (keyPending ev2) (Value.ev ev2)) (keyPending ev2) =
      true := storeHas_set_self _ _ _
  have hh : storeHas (storeSet (storeSet p.store (keyPending ev1)
      (Value.ev ev1)) (keyPending ev2) (Value.ev ev2)) (keyPending ev1) =
      true := by
    rw [storeHas_set_ne _ _ _ _ hk12]
    exact storeHas_set_self _ _ _
  have hrun : p.CheckEvidence noFaults verifyOk [ev1, ev2, ev2] =
      ({ p with
          store := storeSet (storeSet p.store (keyPending ev1)
            (Value.ev ev1)) (keyPending ev2) (Value.ev ev2),
          evidenceSize := ((p.evidenceSize + 1) % u32 + 1) % u32 },
        some CheckError.duplicateEv) := by
    simp [Pool.CheckEvidence, checkLoop, Pool.checkOne, Pool.fastCheck,
      h1k, h2k, Pool.isPending, Pool.isCommitted, noFaults, ha, hb, hc2,
      he, hf, hg, Pool.addPendingEvidence, h1v, h2v, Ne.symm hne]
  rw [hrun]
  refine ⟨rfl, ?_, ?_⟩
  · simp [Pool.isPending, noFaults, hh]
  · show ((p.evidenceSize + 1) % u32 + 1) % u32 = (p.evidenceSize + 2) % u32
    unfold u32
    omega

/-- C9 (witness): the concrete run on the empty pool with the block
evidence list [demoEv9a, demoEv9b, demoEv9b]. -/
theorem c9_witness :
    (demoEmptyPool.CheckEvidence noFaults (fun _ => true)
      [demoEv9a, demoEv9b, demoEv9b]).2 = some CheckError.duplicateEv ∧
    (demoEmptyPool.CheckEvidence noFaults (fun _ => true)
      [demoEv9a, demoEv9b, demoEv9b]).1.isPending noFaults demoEv9a = true ∧
    (demoEmptyPool.CheckEvidence noFaults (fun _ => true)
      [demoEv9a, demoEv9b, demoEv9b]).1.evidenceSize =
      (demoEmptyPool.evidenceSize + 2) % u32 :=
  c9_checkEvidence_not_atomic demoEmptyPool (fun _ => true) demoEv9a
    demoEv9b rfl rfl rfl rfl rfl rfl rfl rfl (by decide)

/-- C5: processing a consensus buffer holding one conflicting-vote pair:
the buffer is empty afterwards; a pair at the state's last height yields
duplicate-vote evidence carrying the state's last time and last validator
set, persisted and pushed to the broadcast list when fresh; a pair at a
lower height yields evidence carrying the historical header time and
loaded validator set, and is skipped when either lookup fails; a pair at a
greater height is skipped; and a pair whose evidence is already pending or
committed is skipped. -/
theorem c5_processConsensusBuffer
    (f : Faults) (env : Env) (s : SMState) (p : Pool)
    (pair : DuplicateVoteSet) (hbuf : p.consensusBuffer = [pair]) :
    (p.processConsensusBuffer f env s).consensusBuffer = [] ∧
    (∀ dve, dve = NewDuplicateVoteEvidence pair.voteA pair.voteB
        s.lastBlockTime s.lastValidators →
      pair.voteA.height = s.lastBlockHeight →
      p.isPending f dve = false → p.isCommitted f dve = false →
      f.setFail (keyPending dve) = false →
      dve.time = s.lastBlockTime ∧ dve.vals = s.lastValidators ∧
      (p.processConsensusBuffer f env s).store =
        storeSet p.store (keyPending dve) (Value.ev dve) ∧
      (p.processConsensusBuffer f env s).evidenceList =
        p.evidenceList ++ [dve]) ∧
    (∀ valset headerTime dve,
      pair.voteA.height < s.lastBlockHeight →
      env.loadValidators pair.voteA.height = some valset →
      env.loadBlockMeta pair.voteA.height = some headerTime →
      dve = NewDuplicateVoteEvidence pair.voteA pair.voteB headerTime valset →
      p.isPending f dve = false → p.isCommitted f dve = false →
      f.setFail (keyPending dve) = false →
      dve.time = headerTime ∧ dve.vals = valset ∧
      (p.processConsensusBuffer f env s).store =
        storeSet p.store (keyPending dve) (Value.ev dve) ∧
      (p.processConsensusBuffer f env s).evidenceList =
        p.evidenceList ++ [dve]) ∧
    (pair.voteA.height < s.lastBlockHeight →
      (env.loadValidators pair.voteA.height = none ∨
       env.loadBlockMeta pair.voteA.height = none) →
      (p.processConsensusBuffer f env s).store = p.store ∧
      (p.processConsensusBuffer f env s).evidenceList = p.evidenceList ∧
      (p.processConsensusBuffer f env s).evidenceSize = p.evidenceSize) ∧
    (s.lastBlockHeight < pair.voteA.height →
      (p.processConsensusBuffer f env s).store = p.store ∧
      (p.processConsensusBuffer f env s).evidenceList = p.evidenceList ∧
      (p.processConsensusBuffer f env s).evidenceSize = p.evidenceSize) ∧
    (∀ dve, dve = NewDuplicateVoteEvidence pair.voteA pair.voteB
        s.lastBlockTime s.lastValidators →
      pair.voteA.height = s.lastBlockHeight →
      (p.isPending f dve = true ∨
       (p.isPending f dve = false ∧ p.isCommitted f dve = true)) →
      (p.processConsensusBuffer f env s).store = p.store ∧
      (p.processConsensusBuffer f env s).evidenceList = p.evidenceList ∧
      (p.processConsensusBuffer f env s).evidenceSize = p.evidenceSize) := by
  have hfold : p.processConsensusBuffer f env s =
      { processPair f env s p pair with consensusBuffer := [] } := by
    unfold Pool.processConsensusBuffer
    rw [hbuf]
    rfl
  refine ⟨by rw [hfold], ?_, ?_, ?_, ?_, ?_⟩
  · intro dve hdve hh hp hc hset
    subst hdve
    rw [hfold]
    refine ⟨rfl, rfl, ?_, ?_⟩ <;>
      simp [processPair, hh, hp, hc, Pool.addPendingEvidence, hset]
  · intro valset headerTime dve hlt hv hm hdve hp hc hset
    subst hdve
    rw [hfold]
    refine ⟨rfl, rfl, ?_, ?_⟩ <;>
      simp [processPair, ne_of_lt hlt, hlt, hv, hm, hp, hc,
        Pool.addPendingEvidence, hset]
  · intro hlt hfail
    rw [hfold]
    rcases hfail with hv | hm
    · refine ⟨?_, ?_, ?_⟩ <;> simp [processPair, ne_of_lt hlt, hlt, hv]
    · cases hv : env.loadValidators pair.voteA.height with
      | none => refine ⟨?_, ?_, ?_⟩ <;>
          simp [processPair, ne_of_lt hlt, hlt, hv]
      | some valset => refine ⟨?_, ?_, ?_⟩ <;>
          simp [processPair, ne_of_lt hlt, hlt, hv, hm]
  · intro hgt
    rw [hfold]
    have hne : pair.voteA.height ≠ s.lastBlockHeight := (ne_of_lt hgt).symm
    have hnlt : ¬ pair.voteA.height < s.lastBlockHeight := not_lt.mpr hgt.le
    refine ⟨?_, ?_, ?_⟩ <;> simp [processPair, hne, hnlt]
  · intro dve hdve hh hskip
    subst hdve
    rw [hfold]
    rcases hskip with hp | ⟨hp, hc⟩
    · refine ⟨?_, ?_, ?_⟩ <;> simp [processPair, hh, hp]
    · refine ⟨?_, ?_, ?_⟩ <;> simp [processPair, hh, hp, hc]

/-- C5 (witness): a buffered pair at the pool's own last height 100 turns
into duplicate-vote evidence stamped with the last block time 2000 and the
last validator set 7, persisted and broadcast, and the buffer is cleared. -/
theorem c5_witness :
    (demoPool5.processConsensusBuffer noFaults demoEnv
      demoState).consensusBuffer = [] ∧
    (NewDuplicateVoteEvidence demoPair.voteA demoPair.voteB
        demoState.lastBlockTime demoState.lastValidators).time = 2000 ∧
    (NewDuplicateVoteEvidence demoPair.voteA demoPair.voteB
        demoState.lastBlockTime demoState.lastValidators).vals = 7 ∧
    (demoPool5.processConsensusBuffer noFaults demoEnv demoState).store =
      storeSet demoPool5.store
        (keyPending (NewDuplicateVoteEvidence demoPair.voteA demoPair.voteB
          demoState.lastBlockTime demoState.lastValidators))
        (Value.ev (NewDuplicateVoteEvidence demoPair.voteA demoPair.voteB
          demoState.lastBlockTime demoState.lastValidators)) := by
  have h := c5_processConsensusBuffer noFaults demoEnv demoState demoPool5
    demoPair rfl
  have h2 := h.2.1 (NewDuplicateVoteEvidence demoPair.voteA demoPair.voteB
    demoState.lastBlockTime demoState.lastValidators) rfl rfl rfl rfl rfl
  exact ⟨h.1, h2.1, h2.2.1, h2.2.2.1⟩

/-- C10 (witness): decrementing a counter of 1 by 3 wraps to 2^32 - 2. -/
theorem c10_witness :
    (1 ≤ 3 ∧ (1 : ℕ) < 3 ∧ 3 ≤ u32) ∧
    (sizeDecrement 1 3 : ℤ) = ((1 : ℤ) - 3) % (u32 : ℤ) ∧
    sizeDecrement 1 3 = u32 - (3 - 1) := by
  refine ⟨by decide, (c10_sizeDecrement_mod 1 3).1 (by decide),
    (c10_sizeDecrement_mod 1 3).2 (by decide) (by decide) (by decide)⟩

/-! ### Lemmas about the pending bucket and the expiry scan -/

theorem mem_iterPfx (s : Store) (q : ℤ) (kv : Key × Value) :
    kv ∈ iterPfx s q ↔ kv ∈ s ∧ kv.1.pfx = q := by
  simp [iterPfx, List.mem_filter]

theorem filterMap_evOf_allEv (l : Store)
    (h : ∀ kv ∈ l, ∃ e, kv.2 = Value.ev e) :
    l = (l.filterMap evOf).map (fun ke => (ke.1, Value.ev ke.2)) := by
  induction l with
  | nil => rfl
  | cons kv rest ih =>
    obtain ⟨e, he⟩ := h kv (by simp)
    rcases kv with ⟨k, v⟩
    simp only at he
    subst he
    simp only [List.filterMap_cons, evOf, List.map_cons]
    exact congrArg (List.cons _)
      (ih fun kv hkv => h kv (List.mem_cons_of_mem _ hkv))

theorem iterPfx_pending_eq (s : Store) (hwf : PendingWF s) :
    iterPfx s pfxPending =
      (pendingEntries s).map (fun ke => (ke.1, Value.ev ke.2)) := by
  unfold pendingEntries
  apply filterMap_evOf_allEv
  intro kv hkv
  rw [mem_iterPfx] at hkv
  have hw := hwf kv hkv.1
  rcases kv with ⟨k, v⟩
  cases v with
  | ev e => exact ⟨e, rfl⟩
  | committedHeight n =>
    unfold entryWF at hw
    exact (hw hkv.2).elim

theorem batchExpiredLoop_mapped (p : Pool) (l : List (Key × Evidence)) :
    ∀ dels bmap,
      (p.batchExpiredLoop (l.map (fun ke => (ke.1, Value.ev ke.2)))
        dels bmap).2.2.1 =
        dels ++ (l.takeWhile
          (fun ke => p.isExpired ke.2.height ke.2.time)).map
          (fun ke => ke.1) ∧
      (p.batchExpiredLoop (l.map (fun ke => (ke.1, Value.ev ke.2)))
        dels bmap).2.2.2 =
        insertHashes bmap ((l.takeWhile
          (fun ke => p.isExpired ke.2.height ke.2.time)).map
          (fun ke => ke.2.hash)) := by
  induction l with
  | nil =>
    intro dels bmap
    simp [Pool.batchExpiredLoop, insertHashes]
  | cons ke t ih =>
    intro dels bmap
    rcases ke with ⟨k, e⟩
    by_cases hx : p.isExpired e.height e.time = false
    · simp [Pool.batchExpiredLoop, hx, List.takeWhile_cons, insertHashes]
    · have hx' : p.isExpired e.height e.time = true := by
        cases h : p.isExpired e.height e.time
        · exact absurd h hx
        · rfl
      have hih := ih (dels ++ [k]) (insertHash bmap e.hash)
      constructor
      · simp only [List.map_cons, Pool.batchExpiredLoop, hx',
          Bool.true_eq_false, if_false, List.takeWhile_cons, hx', if_true]
        rw [hih.1, List.append_assoc]
        rfl
      · simp only [List.map_cons, Pool.batchExpiredLoop, hx',
          Bool.true_eq_false, if_false, List.takeWhile_cons, hx', if_true]
        rw [hih.2]
        rfl

theorem insertHash_ne_nil (m : List ℕ) (h : ℕ) : insertHash m h ≠ [] := by
  by_cases hm : h ∈ m
  · rw [insertHash, if_pos (decide_eq_true hm)]
    exact List.ne_nil_of_mem hm
  · rw [insertHash, if_neg (by simp [hm])]
    simp

theorem insertHashes_cons_ne_nil (m : List ℕ) (h : ℕ) (t : List ℕ) :
    insertHashes m (h :: t) ≠ [] := by
  induction t generalizing m h with
  | nil => simpa [insertHashes] using insertHash_ne_nil m h
  | cons h2 t2 ih => exact ih (insertHash m h) h2

theorem iterPfx_delete (s : Store) (k : Key) (q : ℤ) :
    iterPfx (storeDelete s k) q = storeDelete (iterPfx s q) k := by
  induction s with
  | nil => rfl
  | cons kv rest ih =>
    rcases kv with ⟨k0, v0⟩
    by_cases h1 : k0 = k
    · subst h1
      by_cases h2 : k0.pfx = q <;>
        simpa [storeDelete, iterPfx, List.filter_cons, h2] using ih
    · by_cases h2 : k0.pfx = q <;>
        simpa [storeDelete, iterPfx, List.filter_cons, h1, h2] using ih

theorem filterMap_evOf_delete (l : Store) (k : Key) :
    (storeDelete l k).filterMap evOf =
      (l.filterMap evOf).filter (fun ke => decide (ke.1 ≠ k)) := by
  induction l with
  | nil => rfl
  | cons kv rest ih =>
    rcases kv with ⟨k0, v0⟩
    by_cases h1 : k0 = k
    · subst h1
      cases v0 with
      | ev e =>
        simp [storeDelete, List.filterMap_cons, evOf, List.filter_cons, ih]
      | committedHeight n =>
        simp [storeDelete, List.filterMap_cons, evOf, ih]
    · cases v0 with
      | ev e =>
        simp [storeDelete, h1, List.filterMap_cons, evOf, List.filter_cons,
          ih]
      | committedHeight n =>
        simp [storeDelete, h1, List.filterMap_cons, evOf, ih]

theorem pendingEntries_delete (s : Store) (k : Key) :
    pendingEntries (storeDelete s k) =
      (pendingEntries s).filter (fun ke => decide (ke.1 ≠ k)) := by
  unfold pendingEntries
  rw [iterPfx_delete, filterMap_evOf_delete]

theorem pendingEntries_foldl_delete (ks : List Key) :
    ∀ s : Store, pendingEntries (ks.foldl storeDelete s) =
      (pendingEntries s).filter (fun ke => decide (ke.1 ∉ ks)) := by
  induction ks with
  | nil =>
    intro s
    simp
  | cons k ks ih =>
    intro s
    rw [List.foldl_cons, ih, pendingEntries_delete, List.filter_filter]
    apply List.filter_congr
    intro ke _
    by_cases h1 : ke.1 = k <;> by_cases h2 : ke.1 ∈ ks <;>
      simp [h1, h2, List.mem_cons]

theorem filterMap_evOf_keys_sublist (l : Store) :
    ((l.filterMap evOf).map (fun ke => ke.1)).Sublist
      (l.map (fun kv => kv.1)) := by
  induction l with
  | nil => simp
  | cons kv rest ih =>
    rcases kv with ⟨k, v⟩
    cases v with
    | ev e =>
      simpa [List.filterMap_cons, evOf] using List.Sublist.cons₂ k ih
    | committedHeight n =>
      simpa [List.filterMap_cons, evOf] using List.Sublist.cons k ih

theorem pendingEntries_keys_sublist (s : Store) :
    ((pendingEntries s).map (fun ke => ke.1)).Sublist
      (s.map (fun kv => kv.1)) := by
  unfold pendingEntries
  exact (filterMap_evOf_keys_sublist _).trans
    ((List.filter_sublist _).map _)

theorem pendingEntries_pairwise (s : Store) (hs : StoreSorted s) :
    (pendingEntries s).Pairwise (fun a b => keyLt a.1 b.1) := by
  have h1 : (s.map (fun kv => kv.1)).Pairwise keyLt :=
    List.pairwise_map.mpr hs
  have h2 := List.Pairwise.sublist (pendingEntries_keys_sublist s) h1
  exact List.pairwise_map.mp h2

theorem filter_not_mem_keys (A B : List (Key × Evidence))
    (hpw : (A ++ B).Pairwise (fun a b => keyLt a.1 b.1)) :
    (A ++ B).filter (fun ke => decide (ke.1 ∉ A.map (fun x => x.1))) = B := by
  rw [List.filter_append]
  have hA : A.filter (fun ke => decide (ke.1 ∉ A.map (fun x => x.1))) = [] := by
    rw [List.filter_eq_nil_iff]
    intro a ha
    simp only [decide_eq_true_eq, Decidable.not_not, List.mem_map]
    exact ⟨a, ha, rfl⟩
  have hB : B.filter (fun ke => decide (ke.1 ∉ A.map (fun x => x.1))) = B := by
    rw [List.filter_eq_self]
    intro b hb
    simp only [decide_eq_true_eq, List.mem_map, not_exists]
    rintro a ⟨ha, hab⟩
    have hlt := (List.pairwise_append.mp hpw).2.2 a ha b hb
    rw [hab] at hlt
    exact keyLt_irrefl b.1 hlt
  rw [hA, hB, List.nil_append]

/-- The expiry prune removes exactly the maximal key-order prefix of
expired items from the pending bucket (with a healthy batch write). -/
theorem removeExpired_dropWhile (q : Pool) (f : Faults)
    (hws : f.writeSyncFail = false)
    (hsorted : StoreSorted q.store) (hwf : PendingWF q.store) :
    pendingEntries (q.removeExpiredPendingEvidence f).1.store =
      (pendingEntries q.store).dropWhile
        (fun ke => q.isExpired ke.2.height ke.2.time) := by
  have hiter : iterPfx q.store pfxPending =
      (pendingEntries q.store).map (fun ke => (ke.1, Value.ev ke.2)) :=
    iterPfx_pending_eq q.store hwf
  have hbatch : q.batchExpiredPendingEvidence =
      q.batchExpiredLoop ((pendingEntries q.store).map
        (fun ke => (ke.1, Value.ev ke.2))) [] [] := by
    unfold Pool.batchExpiredPendingEvidence
    rw [hiter]
  have hspec := batchExpiredLoop_mapped q (pendingEntries q.store) [] []
  have hdels : (q.batchExpiredPendingEvidence).2.2.1 =
      ((pendingEntries q.store).takeWhile
        (fun ke => q.isExpired ke.2.height ke.2.time)).map
        (fun ke => ke.1) := by
    rw [hbatch]
    simpa using hspec.1
  have hbmap : (q.batchExpiredPendingEvidence).2.2.2 =
      insertHashes [] (((pendingEntries q.store).takeWhile
        (fun ke => q.isExpired ke.2.height ke.2.time)).map
        (fun ke => ke.2.hash)) := by
    rw [hbatch]
    simpa using hspec.2
  have hsplit : (pendingEntries q.store).takeWhile
        (fun ke => q.isExpired ke.2.height ke.2.time) ++
      (pendingEntries q.store).dropWhile
        (fun ke => q.isExpired ke.2.height ke.2.time) =
      pendingEntries q.store :=
    List.takeWhile_append_dropWhile _ _
  by_cases hAnil : (pendingEntries q.store).takeWhile
      (fun ke => q.isExpired ke.2.height ke.2.time) = []
  · have hbm0 : (q.batchExpiredPendingEvidence).2.2.2 = [] := by
      rw [hbmap, hAnil]
      rfl
    have hrem : (q.removeExpiredPendingEvidence f).1 = q := by
      simp [Pool.removeExpiredPendingEvidence, hbm0]
    rw [hrem]
    rw [hAnil, List.nil_append] at hsplit
    rw [hsplit]
  · obtain ⟨ke0, A', hAcons⟩ : ∃ ke0 A',
        (pendingEntries q.store).takeWhile
          (fun ke => q.isExpired ke.2.height ke.2.time) = ke0 :: A' := by
      cases hAC : (pendingEntries q.store).takeWhile
        (fun ke => q.isExpired ke.2.height ke.2.time)
      · exact absurd hAC hAnil
      · exact ⟨_, _, rfl⟩
    have hbmne : (q.batchExpiredPendingEvidence).2.2.2 ≠ [] := by
      rw [hbmap, hAcons]
      exact insertHashes_cons_ne_nil _ _ _
    have hrem : (q.removeExpiredPendingEvidence f).1.store =
        ((q.batchExpiredPendingEvidence).2.2.1).foldl storeDelete
          q.store := by
      simp [Pool.removeExpiredPendingEvidence, hbmne, hws]
    rw [hrem, hdels, pendingEntries_foldl_delete]
    have hfil := filter_not_mem_keys
      ((pendingEntries q.store).takeWhile
        (fun ke => q.isExpired ke.2.height ke.2.time))
      ((pendingEntries q.store).dropWhile
        (fun ke => q.isExpired ke.2.height ke.2.time))
      (by rw [hsplit]; exact pendingEntries_pairwise q.store hsorted)
    rw [hsplit] at hfil
    exact hfil

/-- C2 (counterexample): cexEv2 is expired at demoState (strictly below
both freshness cutoffs), the pool is non-empty, an Update to demoState
runs, yet cexEv2 is still pending and still returned by PendingEvidence —
the scan stopped at the earlier-keyed non-expired cexEv1. -/
theorem c2_counterexample :
    isExpiredAt demoState cexEv2.height cexEv2.time = true ∧
    cexEv2.height < demoState.lastBlockHeight -
      demoState.evidenceParams.maxAgeNumBlocks ∧
    cexEv2.time < demoState.lastBlockTime -
      demoState.evidenceParams.maxAgeDuration ∧
    0 < cexPool2.Size ∧
    cexPool2.Update noFaults demoEnv demoState [] = some cexPool2After ∧
    cexPool2After.isPending noFaults cexEv2 = true ∧
    cexEv2 ∈ (cexPool2After.PendingEvidence (-1)).1 := by
  decide

/-- C2 (amended): for a well-formed pool with an empty consensus buffer,
one Update with an empty block evidence list and the prune guard passing
(non-empty pool, new height and time strictly beyond the pruning cursor)
removes from the pending set exactly the maximal key-order prefix of
expired items: an expired item is removed only when every pending item
with a smaller key is also expired. -/
theorem c2_update_prunes_expired_prefix
    (env : Env) (p : Pool) (s : SMState)
    (hsorted : StoreSorted p.store) (hwf : PendingWF p.store)
    (hbuf : p.consensusBuffer = [])
    (hmono : p.state.lastBlockHeight < s.lastBlockHeight)
    (hsz : 0 < p.evidenceSize)
    (hph : p.pruningHeight < s.lastBlockHeight)
    (hpt : p.pruningTime < s.lastBlockTime) :
    ∃ p', p.Update noFaults env s [] = some p' ∧
      pendingEntries p'.store = (pendingEntries p.store).dropWhile
        (fun ke => isExpiredAt s ke.2.height ke.2.time) := by
  have hproc : p.processConsensusBuffer noFaults env s = p := by
    unfold Pool.processConsensusBuffer
    rw [hbuf]
    simp only [List.foldl_nil]
    cases p
    simp_all
  have hmark : Pool.markEvidenceAsCommitted { p with state := s } noFaults
      [] s.lastBlockHeight = { p with state := s } := rfl
  have hupdate : p.Update noFaults env s [] = some
      { (Pool.removeExpiredPendingEvidence { p with state := s }
          noFaults).1 with
        pruningHeight := (Pool.removeExpiredPendingEvidence
          { p with state := s } noFaults).2.1,
        pruningTime := (Pool.removeExpiredPendingEvidence
          { p with state := s } noFaults).2.2 } := by
    simp only [Pool.Update]
    rw [if_neg (by omega : ¬ s.lastBlockHeight ≤ p.state.lastBlockHeight)]
    rw [hproc, hmark]
    rw [if_pos (⟨hsz, hph, hpt⟩ :
      0 < (Pool.Size { p with state := s }) ∧
      ({ p with state := s } : Pool).pruningHeight < s.lastBlockHeight ∧
      ({ p with state := s } : Pool).pruningTime < s.lastBlockTime)]
  refine ⟨_, hupdate, ?_⟩
  exact removeExpired_dropWhile { p with state := s } noFaults rfl
    hsorted hwf

/-- C2 (witness for the amended theorem): updating demoPool2W (expired
demoEvExp followed by fresh demoEvFresh) to demoState prunes exactly the
expired prefix, leaving only demoEvFresh pending. -/
theorem c2_witness :
    StoreSorted demoPool2W.store ∧ PendingWF demoPool2W.store ∧
    demoPool2W.consensusBuffer = [] ∧
    demoPool2W.state.lastBlockHeight < demoState.lastBlockHeight ∧
    0 < demoPool2W.evidenceSize ∧
    demoPool2W.Update noFaults demoEnv demoState [] = some demoPool2WAfter ∧
    pendingEntries demoPool2WAfter.store =
      (pendingEntries demoPool2W.store).dropWhile
        (fun ke => isExpiredAt demoState ke.2.height ke.2.time) := by
  have hu : demoPool2W.Update noFaults demoEnv demoState [] =
      some demoPool2WAfter := by decide
  obtain ⟨p', h1, h2⟩ := c2_update_prunes_expired_prefix demoEnv demoPool2W
    demoState (by decide) (by decide) rfl (by decide) (by decide)
    (by decide) (by decide)
  rw [hu] at h1
  cases h1
  exact ⟨by decide, by decide, rfl, by decide, by decide, hu, h2⟩

/-! ### Lemmas about listEvidence and the byte cap -/

theorem sumSizes_cons (e : Evidence) (l : List Evidence) :
    sumSizes (e :: l) = (e.evSize : ℤ) + sumSizes l := by
  simp [sumSizes]

theorem sumSizes_nonneg (l : List Evidence) : 0 ≤ sumSizes l := by
  induction l with
  | nil => simp [sumSizes]
  | cons e t ih =>
    rw [sumSizes_cons]
    have h1 := Int.natCast_nonneg e.evSize
    omega

theorem fitAux_take (m a : ℤ) (l : List Evidence) :
    fitAux m a l = l.take (fitAux m a l).length := by
  induction l generalizing a with
  | nil => rfl
  | cons e t ih =>
    by_cases h : a + (e.evSize : ℤ) > m
    · simp [fitAux, h]
    · simp only [fitAux, h, if_false, List.length_cons, List.take_succ_cons]
      exact congrArg (List.cons e) (ih (a + (e.evSize : ℤ)))

theorem fitAux_sum (m : ℤ) (l : List Evidence) :
    ∀ a, a ≤ m → a + sumSizes (fitAux m a l) ≤ m := by
  induction l with
  | nil =>
    intro a h
    simpa [fitAux, sumSizes] using h
  | cons e t ih =>
    intro a h
    by_cases hx : a + (e.evSize : ℤ) > m
    · simpa [fitAux, hx, sumSizes] using h
    · have hrec := ih (a + (e.evSize : ℤ)) (by omega)
      simp only [fitAux, hx, if_false, sumSizes_cons]
      omega

theorem fitAux_maximal (m : ℤ) (l : List Evidence) :
    ∀ a n, n ≤ l.length → a + sumSizes (l.take n) ≤ m →
      n ≤ (fitAux m a l).length := by
  induction l with
  | nil =>
    intro a n hn _
    simpa [fitAux] using hn
  | cons e t ih =>
    intro a n hn hsum
    cases n with
    | zero => simp
    | succ n' =>
      rw [List.take_succ_cons, sumSizes_cons] at hsum
      have hnn := sumSizes_nonneg (t.take n')
      have hcond : ¬ (a + (e.evSize : ℤ) > m) := by omega
      simp only [fitAux, hcond, if_false, List.length_cons]
      have hrec := ih (a + (e.evSize : ℤ)) n'
        (by simpa using hn) (by omega)
      omega

theorem listEvidenceLoop_mapped (maxBytes : ℤ) (hmb : 0 ≤ maxBytes)
    (l : List Evidence) :
    ∀ acc accSize total,
      (listEvidenceLoop maxBytes (l.map Value.ev) acc accSize total).1 =
        acc ++ fitAux maxBytes accSize l := by
  induction l with
  | nil =>
    intro acc accSize total
    simp [listEvidenceLoop, fitAux]
  | cons e t ih =>
    intro acc accSize total
    by_cases hx : accSize + (e.evSize : ℤ) > maxBytes
    · have hcond : maxBytes ≠ -1 ∧ accSize + (e.evSize : ℤ) > maxBytes :=
        ⟨by omega, hx⟩
      simp [listEvidenceLoop, fitAux, hx, hcond]
    · have hcond : ¬(maxBytes ≠ -1 ∧ accSize + (e.evSize : ℤ) > maxBytes) := by
        intro hc
        exact hx hc.2
      simp only [List.map_cons, listEvidenceLoop, if_neg hcond, fitAux,
        if_neg hx]
      rw [ih]
      simp

theorem listEvidenceLoop_noCap (l : List Evidence) :
    ∀ acc accSize total,
      (listEvidenceLoop (-1) (l.map Value.ev) acc accSize total).1 =
        acc ++ l := by
  induction l with
  | nil =>
    intro acc accSize total
    simp [listEvidenceLoop]
  | cons e t ih =>
    intro acc accSize total
    have hcond : ¬((-1 : ℤ) ≠ -1 ∧ accSize + (e.evSize : ℤ) > -1) := by
      intro hc
      exact hc.1 rfl
    simp only [List.map_cons, listEvidenceLoop, if_neg hcond]
    rw [ih]
    simp

theorem iterPfx_vals_eq (s : Store) (hwf : PendingWF s) :
    (iterPfx s pfxPending).map (fun kv => kv.2) =
      (pendingList s).map Value.ev := by
  rw [iterPfx_pending_eq s hwf]
  simp [pendingList, List.map_map]

theorem pendingEntries_key_eq (s : Store) (hwf : PendingWF s) :
    ∀ ke ∈ pendingEntries s, ke.1 = keyPending ke.2 := by
  intro ke hke
  unfold pendingEntries at hke
  rw [List.mem_filterMap] at hke
  obtain ⟨kv, hkv, hev⟩ := hke
  rw [mem_iterPfx] at hkv
  have hw := hwf kv hkv.1
  rcases kv with ⟨k, v⟩
  cases v with
  | ev e =>
    unfold entryWF at hw
    have hk := hw hkv.2
    simp only [evOf, Option.some.injEq] at hev
    rw [← hev]
    exact hk
  | committedHeight n => simp [evOf] at hev

theorem pendingList_pairwise (s : Store) (hs : StoreSorted s)
    (hwf : PendingWF s) :
    (pendingList s).Pairwise
      (fun a b => keyLt (keyPending a) (keyPending b)) := by
  have h1 := pendingEntries_pairwise s hs
  have hkeq := pendingEntries_key_eq s hwf
  have h2 : (pendingEntries s).Pairwise
      (fun a b => keyLt (keyPending a.2) (keyPending b.2)) := by
    refine h1.imp_of_mem ?_
    intro a b ha hb hr
    rw [← hkeq a ha, ← hkeq b hb]
    exact hr
  exact List.pairwise_map.mpr h2

/-- C4: with a consistent size counter, PendingEvidence(maxBytes) for a
non-negative cap returns the longest prefix of the pending evidence (in
key order) whose aggregate serialized size stays within the cap, and
PendingEvidence(-1) returns all pending evidence. -/
theorem c4_pendingEvidence_longest_fitting
    (p : Pool) (maxBytes : ℤ)
    (hsorted : StoreSorted p.store) (hwf : PendingWF p.store)
    (hsz : p.evidenceSize = (pendingList p.store).length)
    (hmb : 0 ≤ maxBytes) :
    (∃ k, (p.PendingEvidence maxBytes).1 = (pendingList p.store).take k ∧
      sumSizes ((pendingList p.store).take k) ≤ maxBytes ∧
      (∀ n, n ≤ (pendingList p.store).length →
        sumSizes ((pendingList p.store).take n) ≤ maxBytes → n ≤ k)) ∧
    (p.PendingEvidence (-1)).1 = pendingList p.store ∧
    (pendingList p.store).Pairwise
      (fun a b => keyLt (keyPending a) (keyPending b)) := by
  have hvals : (iterPfx p.store pfxPending).map (fun kv => kv.2) =
      (pendingList p.store).map Value.ev := iterPfx_vals_eq p.store hwf
  refine ⟨?_, ?_, pendingList_pairwise p.store hsorted hwf⟩
  · by_cases hz : p.Size = 0
    · have hnil : pendingList p.store = [] := by
        have hlen : (pendingList p.store).length = 0 := by
          rw [← hsz]
          exact hz
        exact List.length_eq_zero.mp hlen
      refine ⟨0, ?_, ?_, ?_⟩
      · simp [Pool.PendingEvidence, hz, hnil]
      · simpa [hnil, sumSizes] using hmb
      · intro n hn _
        rw [hnil] at hn
        simpa using hn
    · refine ⟨(fitAux maxBytes 0 (pendingList p.store)).length, ?_, ?_, ?_⟩
      · rw [Pool.PendingEvidence, if_neg hz]
        unfold Pool.listEvidence
        rw [hvals, listEvidenceLoop_mapped maxBytes hmb, List.nil_append]
        exact fitAux_take maxBytes 0 (pendingList p.store)
      · rw [← fitAux_take]
        have hbound := fitAux_sum maxBytes (pendingList p.store) 0 hmb
        omega
      · intro n hn hs
        exact fitAux_maximal maxBytes (pendingList p.store) 0 n hn
          (by omega)
  · by_cases hz : p.Size = 0
    · have hnil : pendingList p.store = [] := by
        have hlen : (pendingList p.store).length = 0 := by
          rw [← hsz]
          exact hz
        exact List.length_eq_zero.mp hlen
      simp [Pool.PendingEvidence, hz, hnil]
    · rw [Pool.PendingEvidence, if_neg hz]
      unfold Pool.listEvidence
      rw [hvals, listEvidenceLoop_noCap, List.nil_append]

/-- C4 (witness): the scenario-S5 pool with item sizes 300, 400, 500: cap
600 returns only the first item, cap 700 the first two, no cap all
three. -/
theorem c4_witness :
    ((0 : ℤ) ≤ 600 ∧ StoreSorted demoPoolS5.store ∧
      PendingWF demoPoolS5.store ∧
      demoPoolS5.evidenceSize = (pendingList demoPoolS5.store).length) ∧
    (demoPoolS5.PendingEvidence (-1)).1 = pendingList demoPoolS5.store ∧
    (demoPoolS5.PendingEvidence 600).1 = [demoEv300] ∧
    (demoPoolS5.PendingEvidence 700).1 = [demoEv300, demoEv400] ∧
    (demoPoolS5.PendingEvidence (-1)).1 =
      [demoEv300, demoEv400, demoEv500] := by
  refine ⟨⟨by decide, by decide, by decide, by decide⟩, ?_, by decide,
    by decide, by decide⟩
  exact (c4_pendingEvidence_longest_fitting demoPoolS5 600 (by decide)
    (by decide) (by decide) (by decide)).2.1

end EvidencePool
